import Mathlib

/-!
Verification of the frame-buffer core and the scraper application of the
`innocent-bread` repository.

The repository's own sources (`src/packages/scraper`, the two entry modules)
are embedded directly.  The frame-buffer engine (colors, cell buffers, draw
primitives, diffing, double-buffer swap controller) lives in the external
`@opentui/core` package whose implementation is not present under `src/`;
those components are modelled from the specification, as marked on each
definition.
-/

namespace Opentui

/-- Modelled from the spec: the error taxonomy of §7 (the buffer engine's
implementation is not under `src/`). -/
inductive Err where
  | invalidDimension
  | invalidChannel
  | dimensionMismatch
  | concurrentFrame
deriving DecidableEq, Repr

/-- Modelled from the spec: an immutable RGBA color value (§3), channels
conceptually in [0,1]; represented with exact rationals. -/
structure Color where
  r : ℚ
  g : ℚ
  b : ℚ
  a : ℚ
deriving DecidableEq, Repr

/-- All four channels lie in the unit interval. -/
def Color.inRange (c : Color) : Prop :=
  0 ≤ c.r ∧ c.r ≤ 1 ∧ 0 ≤ c.g ∧ c.g ≤ 1 ∧ 0 ≤ c.b ∧ c.b ≤ 1 ∧ 0 ≤ c.a ∧ c.a ≤ 1

instance (c : Color) : Decidable c.inRange := by
  unfold Color.inRange; infer_instance

/-- The fully transparent color constant. -/
def Color.transparent : Color := ⟨0, 0, 0, 0⟩

/-- Modelled from the spec: `blend(src, dst)` is standard "over" alpha
compositing (§4.1): result channel = src.channel * src.a + dst.channel *
(1 − src.a), result alpha = src.a + dst.a * (1 − src.a). -/
def blend (src dst : Color) : Color :=
  { r := src.r * src.a + dst.r * (1 - src.a)
  , g := src.g * src.a + dst.g * (1 - src.a)
  , b := src.b * src.a + dst.b * (1 - src.a)
  , a := src.a + dst.a * (1 - src.a) }

/-- Modelled from the spec: one terminal character position (§3): a glyph
codepoint (0 is the "empty" sentinel), foreground and background colors, and
an attribute bitmask. -/
structure Cell where
  glyph : Nat
  fg : Color
  bg : Color
  attrs : Nat
deriving DecidableEq, Repr

/-- The default cell: empty glyph, fully transparent fg/bg, cleared attrs. -/
def emptyCell : Cell := ⟨0, Color.transparent, Color.transparent, 0⟩

/-- Modelled from the spec: a width × height grid of cells stored as a flat
array indexed by `row * width + col` (§3), with the optional
"respects alpha" flag. -/
structure Buffer where
  width : Nat
  height : Nat
  respectAlpha : Bool
  cells : List Cell
deriving DecidableEq, Repr

/-- The backing storage has exactly `width * height` cells. -/
def Buffer.wf (b : Buffer) : Prop := b.cells.length = b.width * b.height

/-- The coordinate (x, y) lies inside the buffer. -/
def Buffer.inBounds (b : Buffer) (x y : Int) : Prop :=
  0 ≤ x ∧ x < b.width ∧ 0 ≤ y ∧ y < b.height

instance (b : Buffer) (x y : Int) : Decidable (b.inBounds x y) := by
  unfold Buffer.inBounds; infer_instance

/-- Modelled from the spec: `get(x, y)` is bounds-checked; out-of-bounds
reads return the empty cell, never a fatal error (§4.2). -/
def Buffer.get (b : Buffer) (x y : Int) : Cell :=
  if b.inBounds x y then b.cells.getD (y.toNat * b.width + x.toNat) emptyCell
  else emptyCell

/-- Modelled from the spec: `setCell(x, y, glyph, fg, bg, attrs)` is
bounds-checked; out-of-bounds writes are a no-op (§4.2). -/
def Buffer.setCell (b : Buffer) (x y : Int) (glyph : Nat) (fg bg : Color)
    (attrs : Nat) : Buffer :=
  if b.inBounds x y then
    { b with cells := b.cells.set (y.toNat * b.width + x.toNat) ⟨glyph, fg, bg, attrs⟩ }
  else b

/-- Modelled from the spec: `create(width, height, respectAlpha)` allocates a
grid with all cells initialized to the empty glyph with fully transparent
fg/bg; fails with `InvalidDimensionError` if width or height ≤ 0 (§4.2). -/
def create (w h : Int) (respectAlpha : Bool) : Except Err Buffer :=
  if w ≤ 0 ∨ h ≤ 0 then .error .invalidDimension
  else .ok ⟨w.toNat, h.toNat, respectAlpha,
    List.replicate (w.toNat * h.toNat) emptyCell⟩

/-- Modelled from the spec: `resize(newWidth, newHeight)` reallocates storage;
content within the overlap of old and new dimensions is preserved at matching
coordinates, content outside it is discarded (§4.2).  The bounds check inside
`get` supplies the default cell outside the overlap. -/
def Buffer.resize (b : Buffer) (w h : Nat) : Buffer :=
  { width := w, height := h, respectAlpha := b.respectAlpha,
    cells := (List.range (h * w)).map fun i => b.get ↑(i % w) ↑(i / w) }

/-- Modelled from the spec: a Dirty Cell Update, a (row, col, new Cell) triple
produced by diffing (§3). -/
structure Update where
  row : Nat
  col : Nat
  cell : Cell
deriving DecidableEq, Repr

/-- Row-major order on updates: earlier row first, then earlier column. -/
def Update.lexLt (u v : Update) : Prop :=
  u.row < v.row ∨ (u.row = v.row ∧ u.col < v.col)

/-- Modelled from the spec: `diff(front, back)` requires equal dimensions
(otherwise `DimensionMismatchError`) and produces one Dirty Cell Update per
coordinate where the two cells differ structurally, carrying back's cell, in
row-major order (§4.4). -/
def diff (front back : Buffer) : Except Err (List Update) :=
  if front.width = back.width ∧ front.height = back.height then
    .ok ((List.range back.height).flatMap fun (row : Nat) =>
      (List.range back.width).filterMap fun (col : Nat) =>
        if front.get ↑col ↑row = back.get ↑col ↑row then none
        else some ⟨row, col, back.get ↑col ↑row⟩)
  else .error .dimensionMismatch

/-- Modelled from the spec: the Swap Controller's frame phases (§4.5). -/
inductive Phase where
  | idle
  | rendering
  | diffing
  | presenting
deriving DecidableEq, Repr

/-- Modelled from the spec: the Double-Buffer Swap Controller owning the
front/back buffer pair (§4.5). -/
structure Controller where
  phase : Phase
  front : Buffer
  back : Buffer
deriving DecidableEq, Repr

/-- Modelled from the spec: `beginFrame()` returns the back buffer and
transitions Idle→Rendering; fails with `ConcurrentFrameError` if called while
already mid-frame (§4.5). -/
def beginFrame (c : Controller) : Except Err (Controller × Buffer) :=
  if c.phase = .idle then .ok ({ c with phase := .rendering }, c.back)
  else .error .concurrentFrame

/-- Modelled from the spec: `endFrame()` runs the diff against (front, back),
yields the update sequence and swaps buffer roles, returning to Idle (§4.5);
it is only defined from the Rendering phase. -/
def endFrame (c : Controller) : Except Err (Controller × List Update) :=
  if c.phase = .rendering then
    match diff c.front c.back with
    | .ok updates => .ok (⟨.idle, c.back, c.front⟩, updates)
    | .error e => .error e
  else .error .concurrentFrame

/-- Modelled from the spec: the optional selection-highlight range of
`drawText` — columns in the half-open index range [start, stop) use
`bgColor` for background (§4.3). -/
structure Selection where
  start : Nat
  stop : Nat
  bgColor : Color
deriving DecidableEq, Repr

/-- The background used for the glyph at index `i` of a text run: the
selection's `bgColor` inside the selection range, the plain `bg` outside. -/
def selBg (sel : Option Selection) (bg : Color) (i : Nat) : Color :=
  match sel with
  | some s => if s.start ≤ i ∧ i < s.stop then s.bgColor else bg
  | none => bg

instance (s : Selection) (i : Nat) : Decidable (s.start ≤ i ∧ i < s.stop) := by
  infer_instance

/-- Writes the glyphs of `chars` one per column, the first at `(x + i, y)`,
each through the bounds-checked `setCell`. -/
def drawTextAux (b : Buffer) (chars : List Nat) (x y : Int) (fg bg : Color)
    (attrs : Nat) (sel : Option Selection) (i : Nat) : Buffer :=
  match chars with
  | [] => b
  | c :: rest =>
    drawTextAux (b.setCell (x + i) y c fg (selBg sel bg i) attrs)
      rest x y fg bg attrs sel (i + 1)

/-- Modelled from the spec: `drawText(text, x, y, fg, bg, attrs, selection?)`
writes one glyph per column starting at (x, y), clipping at buffer edges; a
selection range switches the background inside its half-open range (§4.3). -/
def drawText (b : Buffer) (text : List Nat) (x y : Int) (fg bg : Color)
    (attrs : Nat) (sel : Option Selection) : Buffer :=
  drawTextAux b text x y fg bg attrs sel 0

end Opentui

namespace Scraper

/-- Embedded from `src/packages/scraper/src/lib/browser.ts`: JavaScript's
`String.prototype.trim`, removing whitespace from both ends of a line,
modelled on character lists. -/
def trim (l : List Char) : List Char :=
  ((l.dropWhile Char.isWhitespace).reverse.dropWhile Char.isWhitespace).reverse

/-- Embedded from `src/packages/scraper/src/lib/browser.ts`: `readLinks`
splits the file content on newline, trims each line, and keeps the
non-empty lines. -/
def readLinks (content : List Char) : List (List Char) :=
  ((content.splitOn '\n').map trim).filter fun line => decide (0 < line.length)

end Scraper

namespace ScraperApp

/-- The key names handled by App's `useKeyboard` callback in
`src/packages/scraper/src/app.tsx`; `other` stands for any unhandled key. -/
inductive KeyName where
  | f12
  | q
  | p
  | escape
  | other
deriving DecidableEq, Repr

/-- The observable state the keyboard handler can affect: the `modalOpen`
signal, the debug console visibility, and whether the process exited. -/
structure AppState where
  modalOpen : Bool
  consoleVisible : Bool
  exited : Bool
deriving DecidableEq, Repr

/-- Embedded from `src/packages/scraper/src/app.tsx`: the `useKeyboard`
callback — `f12` toggles the console, `q` exits the process, `p` sets the
modal-open signal to the negation of its current value, `escape` sets it to
false, and any other key does nothing. -/
def handleKey (s : AppState) (k : KeyName) : AppState :=
  match k with
  | .f12 => { s with consoleVisible := !s.consoleVisible }
  | .q => { s with exited := true }
  | .p => { s with modalOpen := !s.modalOpen }
  | .escape => { s with modalOpen := false }
  | .other => s

end ScraperApp

namespace Entry

/-- The console-position enum of `@opentui/core` as used by the entry
modules; only `RIGHT` occurs in the sources. -/
inductive ConsolePosition where
  | LEFT
  | RIGHT
  | TOP
  | BOTTOM
deriving DecidableEq, Repr

/-- The console options passed to `render`. -/
structure ConsoleOptions where
  position : ConsolePosition
deriving DecidableEq, Repr

/-- The options record passed to `render` by the entry modules. -/
structure RenderOptions where
  exitOnCtrlC : Bool
  consoleOptions : ConsoleOptions
deriving DecidableEq, Repr

/-- The component a `render` call mounts; both entry modules mount `App`. -/
inductive Component where
  | App
deriving DecidableEq, Repr

/-- A `render` invocation: the mounted component and the options record. -/
structure RenderInvocation where
  component : Component
  options : RenderOptions
deriving DecidableEq, Repr

/-- Embedded from `src/unnamed/part_000`: the module's single `render` call. -/
def part000Main : RenderInvocation :=
  ⟨.App, ⟨true, ⟨.RIGHT⟩⟩⟩

/-- Embedded from `src/unnamed/part_001`: the module's single `render` call. -/
def part001Main : RenderInvocation :=
  ⟨.App, ⟨true, ⟨.RIGHT⟩⟩⟩

end Entry

namespace Opentui

/-- C2: `blend` is the "over" composite: each result channel is
`src.channel * src.a + dst.channel * (1 − src.a)` and the result alpha is
`src.a + dst.a * (1 − src.a)`; for colors whose channels lie in [0,1] the
result stays in [0,1]; a source with alpha 1 yields exactly the source and a
fully transparent source yields exactly the destination. -/
theorem blend_over_spec (src dst : Color) (hs : src.inRange) (hd : dst.inRange) :
    (blend src dst).r = src.r * src.a + dst.r * (1 - src.a) ∧
    (blend src dst).g = src.g * src.a + dst.g * (1 - src.a) ∧
    (blend src dst).b = src.b * src.a + dst.b * (1 - src.a) ∧
    (blend src dst).a = src.a + dst.a * (1 - src.a) ∧
    (blend src dst).inRange ∧
    (src.a = 1 → blend src dst = src) ∧
    (src.a = 0 → blend src dst = dst) := by
  obtain ⟨sr, sg, sb, sa⟩ := src
  obtain ⟨dr, dg, db, da⟩ := dst
  obtain ⟨hr0, hr1, hg0, hg1, hb0, hb1, ha0, ha1⟩ := hs
  obtain ⟨kr0, kr1, kg0, kg1, kb0, kb1, ka0, ka1⟩ := hd
  refine ⟨rfl, rfl, rfl, rfl, ?_, ?_, ?_⟩
  · refine ⟨?_, ?_, ?_, ?_, ?_, ?_, ?_, ?_⟩ <;> simp only [blend] <;> nlinarith
  · intro h
    simp only at h
    subst h
    simp [blend]
  · intro h
    simp only at h
    subst h
    simp [blend]

theorem blend_over_spec_witness :
    Color.inRange ⟨1, 0, 0, 1⟩ ∧ Color.inRange ⟨0, 0, 1, (1 : ℚ)/2⟩ ∧
    (blend ⟨1, 0, 0, 1⟩ ⟨0, 0, 1, (1 : ℚ)/2⟩).inRange :=
  ⟨by norm_num [Color.inRange], by norm_num [Color.inRange],
    (blend_over_spec ⟨1, 0, 0, 1⟩ ⟨0, 0, 1, (1 : ℚ)/2⟩ (by norm_num [Color.inRange])
      (by norm_num [Color.inRange])).2.2.2.2.1⟩

/-- C3: `create(w, h, respectAlpha)` fails with `InvalidDimensionError` iff
`w ≤ 0` or `h ≤ 0`; on success every cell of the returned buffer is the
default cell. -/
theorem create_spec (w h : Int) (ra : Bool) :
    (create w h ra = .error .invalidDimension ↔ w ≤ 0 ∨ h ≤ 0) ∧
    (∀ b, create w h ra = .ok b → ∀ x y : Int, b.get x y = emptyCell) := by
  constructor
  · constructor
    · intro hfail
      by_contra hc
      simp [create, hc] at hfail
    · intro hc
      simp [create, hc]
  · intro b hb x y
    by_cases hc : w ≤ 0 ∨ h ≤ 0
    · simp [create, hc] at hb
    · simp [create, hc] at hb
      subst hb
      unfold Buffer.get
      split
      · simp [List.getD_eq_getElem?_getD]
      · rfl

theorem create_spec_witness :
    (create 2 3 false = .error .invalidDimension ↔ (2 : Int) ≤ 0 ∨ (3 : Int) ≤ 0) ∧
    (∀ b, create 2 3 false = .ok b → ∀ x y : Int, b.get x y = emptyCell) :=
  create_spec 2 3 false

/-- C4: for any coordinate outside the buffer's bounds, `setCell` is a no-op
leaving the buffer entirely unchanged and `get` returns the empty cell; both
are total functions over all integer coordinates. -/
theorem out_of_bounds_spec (b : Buffer) (x y : Int) (h : ¬ b.inBounds x y)
    (glyph : Nat) (fg bg : Color) (attrs : Nat) :
    b.setCell x y glyph fg bg attrs = b ∧ b.get x y = emptyCell := by
  constructor
  · unfold Buffer.setCell
    simp [h]
  · unfold Buffer.get
    simp [h]

theorem Buffer.get_oob (b : Buffer) (x y : Int) (h : ¬ b.inBounds x y) :
    b.get x y = emptyCell := by
  unfold Buffer.get
  rw [if_neg h]

theorem Buffer.get_natCast (b : Buffer) (x y : Nat) :
    b.get ↑x ↑y =
      if x < b.width ∧ y < b.height then b.cells.getD (y * b.width + x) emptyCell
      else emptyCell := by
  unfold Buffer.get Buffer.inBounds
  by_cases hx : x < b.width <;> by_cases hy : y < b.height <;>
    simp [hx, hy, Int.toNat_natCast]

theorem getD_map_range {α : Type} (n : Nat) (f : Nat → α) (i : Nat) (d : α)
    (hi : i < n) : ((List.range n).map f).getD i d = f i := by
  rw [List.getD_eq_getElem _ _ (by simpa using hi)]
  simp

theorem Buffer.get_resize (b : Buffer) (w h : Nat) (x y : Nat)
    (hx : x < w) (hy : y < h) : (b.resize w h).get ↑x ↑y = b.get ↑x ↑y := by
  have hwpos : 0 < w := Nat.lt_of_le_of_lt (Nat.zero_le x) hx
  have hmod : (y * w + x) % w = x := by
    rw [Nat.add_comm, Nat.mul_comm, Nat.add_mul_mod_self_left]
    exact Nat.mod_eq_of_lt hx
  have hdiv : (y * w + x) / w = y := by
    rw [Nat.add_comm, Nat.mul_comm, Nat.add_mul_div_left _ _ hwpos,
      Nat.div_eq_of_lt hx, Nat.zero_add]
  have hlt : y * w + x < h * w := by
    calc y * w + x < y * w + w := by omega
      _ = (y + 1) * w := by ring
      _ ≤ h * w := Nat.mul_le_mul_right _ (by omega)
  rw [Buffer.get_natCast]
  simp only [Buffer.resize]
  rw [if_pos ⟨hx, hy⟩, getD_map_range _ _ _ _ hlt, hmod, hdiv]

/-- C5: resizing a buffer of dimensions (w1, h1) to valid dimensions
(w2, h2) and back leaves every cell inside both (w1, h1) and (w2, h2) at
its original value, and every other cell of the resulting buffer at the
default cell. -/
theorem resize_roundtrip_spec (b : Buffer) (w2 h2 : Nat) (x y : Nat)
    (hx : x < b.width) (hy : y < b.height) :
    ((b.resize w2 h2).resize b.width b.height).get ↑x ↑y =
      if x < w2 ∧ y < h2 then b.get ↑x ↑y else emptyCell := by
  rw [Buffer.get_resize _ _ _ _ _ hx hy]
  by_cases hin : x < w2 ∧ y < h2
  · rw [if_pos hin, Buffer.get_resize _ _ _ _ _ hin.1 hin.2]
  · rw [if_neg hin]
    apply Buffer.get_oob
    intro hcon
    obtain ⟨_, hxw, _, hyh⟩ := hcon
    simp only [Buffer.resize] at hxw hyh
    exact hin ⟨by exact_mod_cast hxw, by exact_mod_cast hyh⟩

theorem resize_roundtrip_spec_witness :
    ((Buffer.resize (Buffer.resize ⟨2, 2, false, List.replicate 4 emptyCell⟩ 1 1) 2 2).get 0 0
      = (Buffer.get ⟨2, 2, false, List.replicate 4 emptyCell⟩ 0 0)) := by
  have h := resize_roundtrip_spec ⟨2, 2, false, List.replicate 4 emptyCell⟩ 1 1 0 0
    (by decide) (by decide)
  simpa using h

/-- C1: `diff(front, back)` fails with `DimensionMismatchError` exactly when
the widths or heights differ; with equal dimensions it yields one Dirty Cell
Update per coordinate where the two cells differ structurally, carrying
back's cell value and no update where they agree, emitted in row-major
order; diffing two buffers with identical content yields the empty
sequence. -/
theorem diff_full_spec (front back : Buffer) :
    (¬(front.width = back.width ∧ front.height = back.height) →
      diff front back = .error .dimensionMismatch) ∧
    (∀ l, diff front back = .ok l →
      (∀ u : Update,
        u ∈ l ↔ u.row < back.height ∧ u.col < back.width ∧
          front.get ↑u.col ↑u.row ≠ back.get ↑u.col ↑u.row ∧
          u.cell = back.get ↑u.col ↑u.row) ∧
      l.Pairwise Update.lexLt) ∧
    diff back back = .ok [] := by
  refine ⟨?_, ?_, ?_⟩
  · intro h
    unfold diff
    rw [if_neg h]
  · intro l hl
    unfold diff at hl
    by_cases hdim : front.width = back.width ∧ front.height = back.height
    · rw [if_pos hdim] at hl
      simp only [Except.ok.injEq] at hl
      subst hl
      constructor
      · intro u
        constructor
        · intro hu
          rw [List.mem_flatMap] at hu
          obtain ⟨row, hrow, hu⟩ := hu
          rw [List.mem_filterMap] at hu
          obtain ⟨col, hcol, heq⟩ := hu
          rw [List.mem_range] at hrow
          rw [List.mem_range] at hcol
          by_cases hc : front.get ↑col ↑row = back.get ↑col ↑row
          · rw [if_pos hc] at heq
            exact absurd heq (by simp)
          · rw [if_neg hc] at heq
            simp only [Option.some.injEq] at heq
            subst heq
            exact ⟨hrow, hcol, hc, rfl⟩
        · rintro ⟨h1, h2, h3, h4⟩
          rw [List.mem_flatMap]
          refine ⟨u.row, List.mem_range.mpr h1, ?_⟩
          rw [List.mem_filterMap]
          refine ⟨u.col, List.mem_range.mpr h2, ?_⟩
          rw [if_neg h3, ← h4]
      · rw [List.pairwise_flatMap]
        constructor
        · intro row _
          rw [List.pairwise_filterMap]
          refine (List.pairwise_lt_range _).imp ?_
          intro c1 c2 hlt u1 hu1 u2 hu2
          split at hu1
          · simp at hu1
          · simp only [Option.mem_def, Option.some.injEq] at hu1
            split at hu2
            · simp at hu2
            · simp only [Option.mem_def, Option.some.injEq] at hu2
              subst hu1
              subst hu2
              exact Or.inr ⟨rfl, hlt⟩
        · refine (List.pairwise_lt_range _).imp ?_
          intro r1 r2 hlt u1 hu1 u2 hu2
          rw [List.mem_filterMap] at hu1
          obtain ⟨c1, _, h1⟩ := hu1
          rw [List.mem_filterMap] at hu2
          obtain ⟨c2, _, h2⟩ := hu2
          split at h1
          · simp at h1
          · simp only [Option.some.injEq] at h1
            split at h2
            · simp at h2
            · simp only [Option.some.injEq] at h2
              subst h1
              subst h2
              exact Or.inl hlt
    · rw [if_neg hdim] at hl
      exact absurd hl (by simp)
  · unfold diff
    simp

theorem diff_full_spec_witness :
    diff ⟨2, 2, false, List.replicate 4 emptyCell⟩ ⟨2, 2, false, List.replicate 4 emptyCell⟩
      = .ok [] :=
  (diff_full_spec ⟨2, 2, false, List.replicate 4 emptyCell⟩
    ⟨2, 2, false, List.replicate 4 emptyCell⟩).2.2

/-- C6: while a frame is in flight (the controller is not Idle), a further
`beginFrame` fails with `ConcurrentFrameError` and, being a pure function
returning only the error, leaves the controller state and both buffers
unchanged; `beginFrame` succeeds only from the Idle state, returning the
back buffer and touching neither buffer, and a second `beginFrame` without
an intervening `endFrame` then fails. -/
theorem beginFrame_spec (c : Controller) :
    (c.phase ≠ .idle → beginFrame c = .error .concurrentFrame) ∧
    (∀ c' buf, beginFrame c = .ok (c', buf) →
      c.phase = .idle ∧ c'.phase = .rendering ∧ c'.front = c.front ∧
      c'.back = c.back ∧ buf = c.back ∧
      beginFrame c' = .error .concurrentFrame) := by
  constructor
  · intro h
    unfold beginFrame
    rw [if_neg h]
  · intro c' buf h
    unfold beginFrame at h
    by_cases hp : c.phase = .idle
    · rw [if_pos hp] at h
      simp only [Except.ok.injEq, Prod.mk.injEq] at h
      obtain ⟨h1, h2⟩ := h
      subst h1
      subst h2
      exact ⟨hp, rfl, rfl, rfl, rfl, by unfold beginFrame; simp⟩
    · rw [if_neg hp] at h
      exact absurd h (by simp)

theorem beginFrame_spec_witness :
    beginFrame ⟨.rendering, ⟨1, 1, false, [emptyCell]⟩, ⟨1, 1, false, [emptyCell]⟩⟩
      = .error .concurrentFrame :=
  (beginFrame_spec ⟨.rendering, ⟨1, 1, false, [emptyCell]⟩, ⟨1, 1, false, [emptyCell]⟩⟩).1
    (by decide)

theorem rowMajor_index_inj {w a d c e : Nat} (hd : d < w) (he : e < w)
    (h : a * w + d = c * w + e) : a = c ∧ d = e := by
  have hac : a = c := by
    rcases Nat.lt_trichotomy a c with hlt | heq | hgt
    · exfalso
      have h1 : a * w + d < a * w + w := by omega
      have h2 : a * w + w = (a + 1) * w := by ring
      have h3 : (a + 1) * w ≤ c * w := Nat.mul_le_mul_right _ (by omega)
      omega
    · exact heq
    · exfalso
      have h1 : c * w + e < c * w + w := by omega
      have h2 : c * w + w = (c + 1) * w := by ring
      have h3 : (c + 1) * w ≤ a * w := Nat.mul_le_mul_right _ (by omega)
      omega
  subst hac
  exact ⟨rfl, by omega⟩

theorem Buffer.width_setCell (b : Buffer) (x y : Int) (g : Nat) (fg bg : Color)
    (a : Nat) : (b.setCell x y g fg bg a).width = b.width := by
  unfold Buffer.setCell
  split <;> rfl

theorem Buffer.height_setCell (b : Buffer) (x y : Int) (g : Nat) (fg bg : Color)
    (a : Nat) : (b.setCell x y g fg bg a).height = b.height := by
  unfold Buffer.setCell
  split <;> rfl

theorem Buffer.wf_setCell (b : Buffer) (x y : Int) (g : Nat) (fg bg : Color)
    (a : Nat) (hwf : b.wf) : (b.setCell x y g fg bg a).wf := by
  unfold Buffer.setCell Buffer.wf at *
  split <;> simpa

theorem Buffer.inBounds_setCell (b : Buffer) (x y u v : Int) (g : Nat)
    (fg bg : Color) (a : Nat) :
    (b.setCell x y g fg bg a).inBounds u v ↔ b.inBounds u v := by
  unfold Buffer.inBounds
  rw [Buffer.width_setCell, Buffer.height_setCell]

theorem Buffer.get_setCell_self (b : Buffer) (hwf : b.wf) (x y : Int) (g : Nat)
    (fg bg : Color) (a : Nat) (h : b.inBounds x y) :
    (b.setCell x y g fg bg a).get x y = ⟨g, fg, bg, a⟩ := by
  obtain ⟨hx0, hxw, hy0, hyh⟩ := h
  have hxn : x.toNat < b.width := by omega
  have hyn : y.toNat < b.height := by omega
  have hidx : y.toNat * b.width + x.toNat < b.cells.length := by
    rw [hwf]
    calc y.toNat * b.width + x.toNat < y.toNat * b.width + b.width := by omega
      _ = (y.toNat + 1) * b.width := by ring
      _ ≤ b.height * b.width := Nat.mul_le_mul_right _ (by omega)
      _ = b.width * b.height := Nat.mul_comm _ _
  unfold Buffer.setCell
  rw [if_pos ⟨hx0, hxw, hy0, hyh⟩]
  unfold Buffer.get Buffer.inBounds
  dsimp only
  rw [if_pos ⟨hx0, hxw, hy0, hyh⟩]
  simp [List.getD_eq_getElem?_getD, List.getElem?_set, hidx]

theorem Buffer.get_setCell_ne (b : Buffer) (x y u v : Int) (g : Nat)
    (fg bg : Color) (a : Nat) (hne : ¬(u = x ∧ v = y)) :
    (b.setCell x y g fg bg a).get u v = b.get u v := by
  unfold Buffer.setCell
  split
  case isFalse => rfl
  case isTrue h =>
    obtain ⟨hx0, hxw, hy0, hyh⟩ := h
    unfold Buffer.get Buffer.inBounds
    dsimp only
    by_cases hb : (0:Int) ≤ u ∧ u < ↑b.width ∧ (0:Int) ≤ v ∧ v < ↑b.height
    · obtain ⟨hu0, huw, hv0, hvh⟩ := hb
      rw [if_pos ⟨hu0, huw, hv0, hvh⟩, if_pos ⟨hu0, huw, hv0, hvh⟩]
      have hidx : y.toNat * b.width + x.toNat ≠ v.toNat * b.width + u.toNat := by
        intro hcon
        have hxn : x.toNat < b.width := by omega
        have hun : u.toNat < b.width := by omega
        obtain ⟨hyv, hxu⟩ := rowMajor_index_inj hxn hun hcon
        apply hne
        constructor
        · rw [← Int.toNat_of_nonneg hu0, ← Int.toNat_of_nonneg hx0, hxu]
        · rw [← Int.toNat_of_nonneg hv0, ← Int.toNat_of_nonneg hy0, hyv]
      simp only [List.getD_eq_getElem?_getD]
      rw [List.getElem?_set_ne hidx]
    · rw [if_neg hb, if_neg hb]

theorem get_drawTextAux_untouched (chars : List Nat) (b : Buffer) (x y : Int)
    (fg bg : Color) (attrs : Nat) (sel : Option Selection) (i : Nat) (u v : Int)
    (h : ∀ j : Nat, j < chars.length → ¬(u = x + ↑(i + j) ∧ v = y)) :
    (drawTextAux b chars x y fg bg attrs sel i).get u v = b.get u v := by
  induction chars generalizing b i with
  | nil => rfl
  | cons c rest ih =>
    rw [drawTextAux]
    rw [ih _ (i + 1) ?hrest]
    case hrest =>
      intro j hj hcon
      have harg : (i + 1 + j : Nat) = (i + (j + 1) : Nat) := by omega
      apply h (j + 1) (by simpa using Nat.add_lt_add_right hj 1)
      exact ⟨by rw [hcon.1, harg], hcon.2⟩
    apply Buffer.get_setCell_ne
    intro hcon
    exact h 0 (by simp) ⟨by rw [hcon.1]; norm_num, hcon.2⟩

theorem get_drawTextAux_written (chars : List Nat) (b : Buffer) (hwf : b.wf)
    (x y : Int) (fg bg : Color) (attrs : Nat) (sel : Option Selection)
    (i j : Nat) (hj : j < chars.length) (hin : b.inBounds (x + ↑(i + j)) y) :
    (drawTextAux b chars x y fg bg attrs sel i).get (x + ↑(i + j)) y =
      ⟨chars.get ⟨j, hj⟩, fg, selBg sel bg (i + j), attrs⟩ := by
  induction chars generalizing b i j with
  | nil => simp at hj
  | cons c rest ih =>
    rw [drawTextAux]
    cases j with
    | zero =>
      have hunt : ∀ k : Nat, k < rest.length →
          ¬(x + ↑(i + 0) = x + ↑(i + 1 + k) ∧ y = y) := by
        intro k hk hcon
        have h2 : (i + 0 : Nat) = i + 1 + k := by exact_mod_cast add_left_cancel hcon.1
        omega
      rw [get_drawTextAux_untouched rest _ x y fg bg attrs sel (i + 1)
        (x + ↑(i + 0)) y hunt]
      have := Buffer.get_setCell_self b hwf (x + ↑i) y c fg (selBg sel bg i)
        attrs (by simpa using hin)
      simpa using this
    | succ j' =>
      have hj' : j' < rest.length := by
        have hsucc : j' + 1 < rest.length + 1 := by simpa using hj
        omega
      have hwf' : (b.setCell (x + ↑i) y c fg (selBg sel bg i) attrs).wf :=
        Buffer.wf_setCell _ _ _ _ _ _ _ hwf
      have harg : (i + 1 + j' : Nat) = (i + (j' + 1) : Nat) := by omega
      have hin' : (b.setCell (x + ↑i) y c fg (selBg sel bg i) attrs).inBounds
          (x + ↑(i + 1 + j')) y := by
        rw [Buffer.inBounds_setCell, harg]
        exact hin
      have hrec := ih _ hwf' (i + 1) j' hj' hin'
      rw [harg] at hrec
      simpa using hrec

/-- C7: `drawText` writes one glyph per column starting at (x, y): the cell
at column x+j (when inside the buffer; writes outside are clipped by the
bounds check) receives glyph text[j], foreground fg, and background
`selection.bgColor` when a selection is given and start ≤ j < stop,
otherwise bg; every cell at a coordinate not targeted by the call is left
unchanged, and the buffer dimensions are preserved. -/
theorem drawText_spec (b : Buffer) (hwf : b.wf) (text : List Nat) (x y : Int)
    (fg bg : Color) (attrs : Nat) (sel : Option Selection) :
    (∀ j : Nat, ∀ hj : j < text.length, b.inBounds (x + ↑j) y →
      (drawText b text x y fg bg attrs sel).get (x + ↑j) y =
        ⟨text.get ⟨j, hj⟩, fg, selBg sel bg j, attrs⟩) ∧
    (∀ u v : Int, (∀ j : Nat, j < text.length → ¬(u = x + ↑j ∧ v = y)) →
      (drawText b text x y fg bg attrs sel).get u v = b.get u v) := by
  constructor
  · intro j hj hin
    have := get_drawTextAux_written text b hwf x y fg bg attrs sel 0 j hj
      (by simpa using hin)
    simpa using this
  · intro u v h
    apply get_drawTextAux_untouched
    intro j hj hcon
    exact h j hj ⟨by simpa using hcon.1, hcon.2⟩

theorem drawText_spec_witness :
    (drawText ⟨10, 1, false, List.replicate 10 emptyCell⟩ [65, 66] 0 0
        ⟨1, 1, 1, 1⟩ ⟨0, 0, 0, 1⟩ 0 none).get 0 0
      = ⟨65, ⟨1, 1, 1, 1⟩, ⟨0, 0, 0, 1⟩, 0⟩ := by
  have h := (drawText_spec ⟨10, 1, false, List.replicate 10 emptyCell⟩
    (by simp [Buffer.wf]) [65, 66] 0 0 ⟨1, 1, 1, 1⟩ ⟨0, 0, 0, 1⟩ 0 none).1
    0 (by simp) (by decide)
  simpa [selBg] using h

theorem out_of_bounds_spec_witness :
    Buffer.setCell ⟨2, 2, false, List.replicate 4 emptyCell⟩ (-1) 0 65
        Color.transparent Color.transparent 0
      = ⟨2, 2, false, List.replicate 4 emptyCell⟩ ∧
    Buffer.get ⟨2, 2, false, List.replicate 4 emptyCell⟩ (-1) 0 = emptyCell :=
  out_of_bounds_spec ⟨2, 2, false, List.replicate 4 emptyCell⟩ (-1) 0
    (by decide) 65 Color.transparent Color.transparent 0

end Opentui

namespace Scraper

theorem head_dropWhile_false {α : Type} (p : α → Bool) (l : List α) (c : α)
    (h : (l.dropWhile p).head? = some c) : p c = false := by
  induction l with
  | nil => simp [List.dropWhile] at h
  | cons a t ih =>
    by_cases hp : p a
    · rw [List.dropWhile_cons, if_pos hp] at h
      exact ih h
    · rw [List.dropWhile_cons, if_neg hp] at h
      simp only [List.head?_cons, Option.some.injEq] at h
      subst h
      simpa using hp

theorem head?_of_append_eq {α : Type} {l₁ l₂ : List α} (h : ∃ t, l₁ ++ t = l₂)
    (c : α) (hc : l₁.head? = some c) : l₂.head? = some c := by
  obtain ⟨t, rfl⟩ := h
  cases l₁ with
  | nil => simp at hc
  | cons a t' =>
    simp only [List.head?_cons, Option.some.injEq] at hc
    simp [hc]

theorem trim_head_not_ws (l : List Char) (c : Char)
    (h : (trim l).head? = some c) : c.isWhitespace = false := by
  obtain ⟨t, ht⟩ :=
    List.dropWhile_suffix (l := (l.dropWhile Char.isWhitespace).reverse)
      Char.isWhitespace
  have hpre : trim l ++ t.reverse = l.dropWhile Char.isWhitespace := by
    have hrev := congrArg List.reverse ht
    simpa [trim, List.reverse_append] using hrev
  have hhead : (l.dropWhile Char.isWhitespace).head? = some c :=
    head?_of_append_eq ⟨t.reverse, hpre⟩ c h
  exact head_dropWhile_false _ _ _ hhead

theorem trim_getLast_not_ws (l : List Char) (c : Char)
    (h : (trim l).getLast? = some c) : c.isWhitespace = false := by
  rw [trim, List.getLast?_reverse] at h
  exact head_dropWhile_false _ _ _ h

/-- C9: `readLinks` returns exactly the lines obtained by splitting the file
content on newline, trimming surrounding whitespace from each line, and
removing the lines that become empty, in their original order; consequently
every returned line is non-empty and starts and ends with a non-whitespace
character. -/
theorem readLinks_spec (content : List Char) :
    readLinks content =
      (((content.splitOn '\n').map trim).filter fun line =>
        decide (0 < line.length)) ∧
    ∀ l ∈ readLinks content, 0 < l.length ∧
      (∀ c, l.head? = some c → c.isWhitespace = false) ∧
      (∀ c, l.getLast? = some c → c.isWhitespace = false) := by
  refine ⟨rfl, ?_⟩
  intro l hl
  unfold readLinks at hl
  rw [List.mem_filter] at hl
  obtain ⟨hmem, hlen⟩ := hl
  rw [List.mem_map] at hmem
  obtain ⟨m, _, rfl⟩ := hmem
  refine ⟨by simpa using hlen, ?_, ?_⟩
  · exact fun c hc => trim_head_not_ws m c hc
  · exact fun c hc => trim_getLast_not_ws m c hc

theorem readLinks_spec_witness :
    readLinks (' ' :: 'a' :: '\n' :: '\n' :: 'b' :: ' ' :: []) = [['a'], ['b']] := by
  have h := (readLinks_spec (' ' :: 'a' :: '\n' :: '\n' :: 'b' :: ' ' :: [])).1
  rw [h]
  decide

end Scraper

namespace ScraperApp

/-- C10: in App's keyboard handler, `escape` sets the modal-open signal to
false regardless of its prior value, `p` negates it, and the other handled
keys `f12` and `q` leave it unchanged. -/
theorem handleKey_modal_spec (s : AppState) :
    (handleKey s .escape).modalOpen = false ∧
    (handleKey s .p).modalOpen = !s.modalOpen ∧
    (handleKey s .f12).modalOpen = s.modalOpen ∧
    (handleKey s .q).modalOpen = s.modalOpen :=
  ⟨rfl, rfl, rfl, rfl⟩

theorem handleKey_modal_spec_witness :
    (handleKey ⟨true, false, false⟩ .escape).modalOpen = false ∧
    (handleKey ⟨true, false, false⟩ .p).modalOpen = !true ∧
    (handleKey ⟨true, false, false⟩ .f12).modalOpen = true ∧
    (handleKey ⟨true, false, false⟩ .q).modalOpen = true :=
  handleKey_modal_spec ⟨true, false, false⟩

end ScraperApp

namespace Entry

/-- C8: the two entry modules are behaviorally equivalent — each invokes
`render` with the component `App` and identical options (`exitOnCtrlC` true
and console position `ConsolePosition.RIGHT`); they differ only in the
textual order of their import statements. -/
theorem entry_modules_equivalent :
    part000Main = part001Main ∧
    part000Main.component = Component.App ∧
    part000Main.options.exitOnCtrlC = true ∧
    part000Main.options.consoleOptions.position = ConsolePosition.RIGHT ∧
    part001Main.component = Component.App ∧
    part001Main.options.exitOnCtrlC = true ∧
    part001Main.options.consoleOptions.position = ConsolePosition.RIGHT :=
  ⟨rfl, rfl, rfl, rfl, rfl, rfl, rfl⟩

end Entry
